import Mathlib

/-!
Verification of the masking core of `mask_identities.py`.

The Python source is shallowly embedded: strings become `List Char`,
dict-like records become structures with `Option` fields, the lazy
generator `masked_mentions` becomes a fold that returns both the mentions
it yields and the (mutated) annotated-data-model state, and Python
exceptions become `Except String`.  Python's `sorted` is a stable sort by
the key function; it is modelled by `List.insertionSort`, which is also
stable (its stability is proved below in the form needed).
-/

namespace MaskIdentities

/-- Decidable equality of `Except` values, for concrete evaluations. -/
instance {ε α : Type} [DecidableEq ε] [DecidableEq α] : DecidableEq (Except ε α) := fun x y =>
  match x, y with
  | .ok a, .ok b =>
    if h : a = b then isTrue (by rw [h])
    else isFalse (fun hc => h (by cases hc; rfl))
  | .error a, .error b =>
    if h : a = b then isTrue (by rw [h])
    else isFalse (fun hc => h (by cases hc; rfl))
  | .ok _, .error _ => isFalse (fun hc => Except.noConfusion hc)
  | .error _, .ok _ => isFalse (fun hc => Except.noConfusion hc)

/-! ### Python primitives: slicing, `zip`, `str.format` -/

/-- Python slice `s[a:b]` on a list: negative indices count from the end,
out-of-range indices are clamped, and an empty list results when the
normalized start is not below the normalized stop. -/
def pyslice (s : List Char) (a b : Int) : List Char :=
  let n := s.length
  let lo : Nat := if a < 0 then ((n : Int) + a).toNat else min a.toNat n
  let hi : Nat := if b < 0 then ((n : Int) + b).toNat else min b.toNat n
  (s.take hi).drop lo

/-- Python slice `s[:b]` (start omitted, hence 0). -/
def pysliceTo (s : List Char) (b : Int) : List Char :=
  pyslice s 0 b

/-- Python slice `s[a:]` (stop omitted, hence the length). -/
def pysliceFrom (s : List Char) (a : Int) : List Char :=
  pyslice s a s.length

/-- One column-step of Python `zip`: the first column is scrutinized
structurally, the remaining columns are checked for emptiness; `zip`
stops as soon as any iterator is exhausted. -/
def pyzipGo : List α → List (List α) → List (List α)
  | [], _ => []
  | a :: c, rest =>
    if rest.all (fun l => !l.isEmpty) then
      (a :: rest.filterMap List.head?) :: pyzipGo c (rest.map List.tail)
    else []

/-- Python `zip(cols...)`: tuples of the heads while every column is
non-empty.  `zip()` of no iterables is empty. -/
def pyzip : List (List α) → List (List α)
  | [] => []
  | c :: rest => pyzipGo c rest

/-- `ngrams(iterable, n)` from the source: `zip` of the `n` successive
suffixes `iterable[i:]` for `i` in `range(n)`. -/
def ngrams (iterable : List α) (n : Nat) : List (List α) :=
  pyzip ((List.range n).map (fun i => iterable.drop i))

/-- Processing state of `str.format` parsing: whether automatic
(`\x7b\x7d`) and manual (`\x7b0\x7d`) replacement fields have been used. -/
structure FmtState where
  usedAuto : Bool
  usedManual : Bool
  deriving Repr, DecidableEq

/-- Digits of a replacement-field index, as a number. -/
def fieldVal (field : List Char) : Nat :=
  field.foldl (fun a c => a * 10 + (c.toNat - 48)) 0

/-- Core of Python `template.format(arg)` with a single positional
argument.  The second argument is `some field` while scanning a
replacement field.  Doubled braces are literals; an automatic field is
numbered by a running counter (only index 0 exists here); a manual field
must be index 0; mixing automatic and manual numbering, dangling braces,
out-of-range indices and named fields raise. -/
def pyformatGo (arg : Nat) : List Char → Option (List Char) → FmtState →
    Except String (List Char)
  | [], none, _ => .ok []
  | [], some _, _ => .error "ValueError: Single open brace encountered in format string"
  | c :: rest, some field, st =>
    if c = '\x7d' then
      if field.isEmpty then
        if st.usedManual then
          .error "ValueError: cannot switch from manual field specification to automatic field numbering"
        else if st.usedAuto then
          .error "IndexError: Replacement index 1 out of range for positional args tuple"
        else
          ((Nat.repr arg).data ++ ·) <$> pyformatGo arg rest none ⟨true, st.usedManual⟩
      else if field.all Char.isDigit then
        if st.usedAuto then
          .error "ValueError: cannot switch from automatic field numbering to manual field specification"
        else if fieldVal field = 0 then
          ((Nat.repr arg).data ++ ·) <$> pyformatGo arg rest none ⟨st.usedAuto, true⟩
        else
          .error "IndexError: Replacement index out of range for positional args tuple"
      else
        .error "KeyError: named replacement field without keyword arguments"
    else
      pyformatGo arg rest (some (field ++ [c])) st
  | '\x7b' :: '\x7b' :: rest, none, st => ('\x7b' :: ·) <$> pyformatGo arg rest none st
  | '\x7d' :: '\x7d' :: rest, none, st => ('\x7d' :: ·) <$> pyformatGo arg rest none st
  | '\x7b' :: rest, none, st => pyformatGo arg rest (some []) st
  | '\x7d' :: _, none, _ => .error "ValueError: Single close brace encountered in format string"
  | c :: rest, none, st => (c :: ·) <$> pyformatGo arg rest none st

/-- Python `template.format(arg)` with one positional argument. -/
def pyformat (template : String) (arg : Nat) : Except String String :=
  String.mk <$> pyformatGo arg template.data none ⟨false, false⟩

/-! ### Data model -/

/-- A mention dict: character offsets (absent keys read as `-1` by
`extent`) and the `mask` key, absent until `masked_mentions` sets it.
Provenance fields are never read by the core and are omitted. -/
structure Mention where
  startOffset : Option Int := none
  endOffset : Option Int := none
  mask : Option String := none
  deriving Repr, DecidableEq

/-- An entity of the ADM: a type tag and its mentions. -/
structure Entity where
  type : String
  mentions : List Mention
  deriving Repr, DecidableEq

/-- The Annotated Data Model as the core reads it: the document text
`adm['data']` and the entity list `adm['attributes']['entities']['items']`. -/
structure Adm where
  data : List Char
  entities : List Entity
  deriving Repr, DecidableEq

/-- The module-level `MASKS` dict of default entity-type masks. -/
def MASKS : List (String × String) := [
  ("ORGANIZATION", "ORGANIZATION\x7b\x7d"),
  ("PERSON", "PERSON\x7b\x7d"),
  ("LOCATION", "LOCATION\x7b\x7d"),
  ("PRODUCT", "PRODUCT\x7b\x7d"),
  ("TITLE", "TITLE\x7b\x7d"),
  ("NATIONALITY", "NATIONALITY\x7b\x7d"),
  ("RELIGION", "RELIGION\x7b\x7d"),
  ("IDENTIFIER:CREDIT_CARD_NUM", "IDENTIFIER:CREDIT_CARD_NUM"),
  ("IDENTIFIER:EMAIL", "IDENTIFIER:EMAIL"),
  ("IDENTIFIER:MONEY", "IDENTIFIER:MONEY"),
  ("IDENTIFIER:PERSONAL_ID_NUM", "IDENTIFIER:PERSONAL_ID_NUM"),
  ("IDENTIFIER:PHONE_NUMBER", "IDENTIFIER:PHONE_NUMBER"),
  ("TEMPORAL:DATE", "TEMPORAL:DATE"),
  ("TEMPORAL:TIME", "TEMPORAL:TIME"),
  ("IDENTIFIER:LATITUDE_LONGITUDE", "IDENTIFIER:LATITUDE_LONGITUDE"),
  ("IDENTIFIER:URL", "IDENTIFIER:URL"),
  ("IDENTIFIER:DISTANCE", "IDENTIFIER:DISTANCE")]

/-- `extent(obj)`: the pair of offsets, `-1` for an absent key. -/
def extent (m : Mention) : Int × Int :=
  (m.startOffset.getD (-1), m.endOffset.getD (-1))

/-- Lexicographic order on offset pairs, as Python compares the
sort-key tuples produced by `extent`. -/
def pairLe (p q : Int × Int) : Prop :=
  p.1 < q.1 ∨ (p.1 = q.1 ∧ p.2 ≤ q.2)

instance : DecidableRel pairLe := fun p q => by
  unfold pairLe; exact inferInstance

/-- The comparison `sorted(..., key=extent)` sorts by. -/
def mentionLe (a b : Mention) : Prop :=
  pairLe (extent a) (extent b)

instance : DecidableRel mentionLe := fun a b => by
  unfold mentionLe; exact inferInstance

instance : IsTotal Mention mentionLe :=
  ⟨fun a b => by unfold mentionLe pairLe; omega⟩

instance : IsTrans Mention mentionLe :=
  ⟨fun a b c => by unfold mentionLe pairLe; omega⟩

/-! ### The `masked_mentions` generator -/

/-- The per-type counter dict `index`, one zero per key of the global
`MASKS` (not of the `masks` argument). -/
def initIndex : List (String × Nat) := MASKS.map (fun kv => (kv.1, 0))

/-- Store `n` at key `t` of an association-list dict (no-op on an
absent key; the source only stores into keys it just read). -/
def setIndex : List (String × Nat) → String → Nat → List (String × Nat)
  | [], _, _ => []
  | kv :: rest, t, n => if kv.1 = t then (kv.1, n) :: rest else kv :: setIndex rest t n

/-- One pass of the `masked_mentions` loop body for a single entity: if
its type is configured, the per-type counter is incremented (a
`KeyError` when the counter dict lacks the key), and each of its
mentions receives `masks[entity['type']].format(index[entity['type']])`
in its `mask` key and is yielded.  The format call happens once per
mention with identical arguments, so it is evaluated only when mentions
exist and a formatting error leaves every mention of the entity
undecorated.  Returns the updated counter dict, the updated entity and
the yielded mentions. -/
def decorateEntity (masks : List (String × String)) (index : List (String × Nat))
    (e : Entity) : Except String (List (String × Nat) × Entity × List Mention) :=
  match masks.lookup e.type with
  | none => .ok (index, e, [])
  | some template =>
    match index.lookup e.type with
    | none => .error ("KeyError: " ++ e.type)
    | some n =>
      let index' := setIndex index e.type (n + 1)
      match e.mentions with
      | [] => .ok (index', e, [])
      | _ :: _ =>
        match pyformat template (n + 1) with
        | .error msg => .error msg
        | .ok label =>
          let ms := e.mentions.map (fun m => { m with mask := some label })
          .ok (index', { e with mentions := ms }, ms)

/-- Run the `masked_mentions` generator to exhaustion over the entity
list, threading the counter dict.  On success: the updated entities and
the yielded (decorated) mentions, in order.  On an exception: the
message together with the entity-list state at that point — entities
before the offending one keep their decorations. -/
def maskedMentionsGo (masks : List (String × String)) (index : List (String × Nat)) :
    List Entity → Except (String × List Entity) (List Entity × List Mention)
  | [] => .ok ([], [])
  | e :: rest =>
    match decorateEntity masks index e with
    | .error msg => .error (msg, e :: rest)
    | .ok (index', e', ys) =>
      match maskedMentionsGo masks index' rest with
      | .error (msg, rest') => .error (msg, e' :: rest')
      | .ok (rest', ys') => .ok (e' :: rest', ys ++ ys')

/-- `masked_mentions(adm, masks)`, fully consumed (as `mask` consumes it
via `sorted`).  The counter dict starts at 0 for every key of the global
`MASKS`.  The generator decorates mentions in place in the caller's
`adm`, so both outcomes carry the resulting `Adm` state. -/
def masked_mentions (adm : Adm) (masks : List (String × String)) :
    Except (String × Adm) (Adm × List Mention) :=
  match maskedMentionsGo masks initIndex adm.entities with
  | .error (msg, es) => .error (msg, { adm with entities := es })
  | .ok (es, ys) => .ok ({ adm with entities := es }, ys)

/-! ### The `mask` function -/

/-- The label `current['mask']` read by the stitching loop.  The key is
present on every mention `masked_mentions` yields (the only mentions the
loop ever sees); an absent key is read as the empty label. -/
def maskLabel (m : Mention) : List Char := (m.mask.getD "").data

/-- Python `min` over the 2-tuple `extent(m)`. -/
def minExtent (p : Int × Int) : Int := min p.1 p.2

/-- Python `max` over the 2-tuple `extent(m)`. -/
def maxExtent (p : Int × Int) : Int := max p.1 p.2

/-- Truthiness of a mention dict in `any(masked)`: every dict in the
sorted list holds at least its `mask` key, hence is non-empty and
truthy. -/
def truthy (_ : Mention) : Bool := true

/-- The loop body of the stitching pass, for one `ngrams(masked, n=2)`
window: append `current['mask']` and the source slice between
`max(extent(current))` and `min(extent(subsequent))`.  (`ngrams` with
`n = 2` only produces two-element windows.) -/
def stitchStep (docData : List Char) (acc : List Char) (window : List Mention) : List Char :=
  match window with
  | [current, subsequent] =>
    acc ++ maskLabel current ++
      pyslice docData (maxExtent (extent current)) (minExtent (extent subsequent))
  | _ => acc

/-- The body of `mask` after `masked_mentions` has been consumed: the
stable sort of the decorated mentions by the key `extent` (Python's
`sorted` is a stable sort; so is insertion sort), guarded by
`any(masked)` (false exactly on the empty list, since every dict in it
is non-empty, hence truthy), then the prefix before the first mention,
the loop over consecutive `ngrams(masked, n=2)` windows, and the final
mention's label and suffix.  `subsequent` after the loop is the last
element of `masked` (the first one when the loop never ran, on a single
mention). -/
def redact (docData : List Char) (mentions : List Mention) : List Char :=
  match List.insertionSort mentionLe mentions with
  | [] => docData
  | first :: rest =>
    if (first :: rest).any truthy then
      (ngrams (first :: rest) 2).foldl (stitchStep docData)
          (pysliceTo docData (minExtent (extent first)))
        ++ maskLabel ((first :: rest).getLast (List.cons_ne_nil first rest))
        ++ pysliceFrom docData
            (maxExtent (extent ((first :: rest).getLast (List.cons_ne_nil first rest))))
    else
      docData

/-- `mask(adm, masks)` together with the caller-visible `adm` state.
The generator is consumed by `sorted` before the output accumulator
starts, so an exception escapes before any output string is
assembled, with the decorations performed so far still in place. -/
def maskFull (adm : Adm) (masks : List (String × String)) :
    Except String (List Char) × Adm :=
  match masked_mentions adm masks with
  | .error (msg, adm') => (.error msg, adm')
  | .ok (adm', ys) => (.ok (redact adm.data ys), adm')

/-- The return value of `mask(adm, masks)`. -/
def mask (adm : Adm) (masks : List (String × String)) : Except String (List Char) :=
  (maskFull adm masks).1

/-! ### Spec-side definitions

These re-state, in the specification's own words, what the output of the
stitching pass should be; they are compared with `redact` for the
refinement claim. -/

/-- Stated from the spec: for each consecutive pair (current, next) of
the sorted mentions, the current mention's mask label followed by the
document substring from current's end to next's start; finally the last
mention's mask label followed by the substring from its end to the
document's end. -/
def stitchSpec (docData : List Char) : List Mention → List Char
  | [] => []
  | [m] => maskLabel m ++ pysliceFrom docData (extent m).2
  | current :: next :: rest =>
    maskLabel current ++ pyslice docData (extent current).2 (extent next).1 ++
      stitchSpec docData (next :: rest)

/-- Stated from the spec: the document substring from position 0 to the
first sorted mention's start, then the pair-stitching of the list stably
sorted ascending by the key `(start, end)`. -/
def redactSpec (docData : List Char) (mentions : List Mention) : List Char :=
  match List.insertionSort mentionLe mentions with
  | [] => docData
  | first :: rest => pysliceTo docData (extent first).1 ++ stitchSpec docData (first :: rest)

/-- Number of entities of type `t` in a list (the extraction-order rank
of the last one). -/
def countType (t : String) (es : List Entity) : Nat :=
  (es.filter (fun e => e.type == t)).length

/-! ### Concrete inputs used in the example claims and witnesses -/

/-- The document of the docstring example. -/
def exDoc : List Char := ("John Smith is accused of stealing $1,000,000.").data

/-- The docstring example ADM: PERSON at (0, 10), IDENTIFIER:MONEY at
(34, 44) (as in the source's `masked_mentions` docstring). -/
def exAdm : Adm :=
  ⟨exDoc, [⟨"PERSON", [⟨some 0, some 10, none⟩]⟩,
           ⟨"IDENTIFIER:MONEY", [⟨some 34, some 44, none⟩]⟩]⟩

/-- The same ADM with the money mention shifted to (35, 45). -/
def exAdm35 : Adm :=
  ⟨exDoc, [⟨"PERSON", [⟨some 0, some 10, none⟩]⟩,
           ⟨"IDENTIFIER:MONEY", [⟨some 35, some 45, none⟩]⟩]⟩

/-- The example configuration. -/
def exCfg : List (String × String) :=
  [("PERSON", "PERSON\x7b\x7d"), ("IDENTIFIER:MONEY", "MONEY-AMOUNT")]

/-- The example's expected output. -/
def exOut : List Char := ("PERSON1 is accused of stealing MONEY-AMOUNT.").data

/-- The example ADM after masking decorated it in place. -/
def exAdmMasked : Adm :=
  ⟨exDoc, [⟨"PERSON", [⟨some 0, some 10, some "PERSON1"⟩]⟩,
           ⟨"IDENTIFIER:MONEY", [⟨some 34, some 44, some "MONEY-AMOUNT"⟩]⟩]⟩

/-- A PERSON-only configuration. -/
def cfgPerson : List (String × String) := [("PERSON", "PERSON\x7b\x7d")]

/-- One PERSON entity with two mentions. -/
def admC2cx : Adm :=
  ⟨"abcdef".data, [⟨"PERSON", [⟨some 0, some 1, none⟩, ⟨some 3, some 4, none⟩]⟩]⟩

/-- Two PERSON entities around a LOCATION entity, one mention each. -/
def admC2w : Adm :=
  ⟨"abcdefgh".data, [⟨"PERSON", [⟨some 0, some 1, none⟩]⟩,
                     ⟨"LOCATION", [⟨some 2, some 3, none⟩]⟩,
                     ⟨"PERSON", [⟨some 4, some 5, none⟩]⟩]⟩

/-- `admC2w` after masking with `cfgPerson`. -/
def admC2wMasked : Adm :=
  ⟨"abcdefgh".data, [⟨"PERSON", [⟨some 0, some 1, some "PERSON1"⟩]⟩,
                     ⟨"LOCATION", [⟨some 2, some 3, none⟩]⟩,
                     ⟨"PERSON", [⟨some 4, some 5, some "PERSON2"⟩]⟩]⟩

/-- The mentions yielded for `admC2w` with `cfgPerson`. -/
def ysC2w : List Mention :=
  [⟨some 0, some 1, some "PERSON1"⟩, ⟨some 4, some 5, some "PERSON2"⟩]

/-- A document with a single offset-less mention of a configured type. -/
def admC4 : Adm := ⟨"ab".data, [⟨"PERSON", [⟨none, none, none⟩]⟩]⟩

/-- A well-typed first entity followed by one whose template has an
out-of-range manual replacement index. -/
def admC7 : Adm :=
  ⟨"xy".data, [⟨"PERSON", [⟨some 0, some 1, none⟩]⟩,
               ⟨"LOCATION", [⟨some 1, some 2, none⟩]⟩]⟩

/-- Configuration whose LOCATION template `LOC\x7b1\x7d` demands a second
positional argument that `masked_mentions` never supplies. -/
def cfgC7 : List (String × String) :=
  [("PERSON", "PERSON\x7b\x7d"), ("LOCATION", "LOC\x7b1\x7d")]

/-- A document for the stitching-refinement witness. -/
def dC1 : List Char := "abcdefgh".data

/-- Two decorated mentions given out of textual order. -/
def msC1 : List Mention :=
  [⟨some 5, some 7, some "B"⟩, ⟨some 0, some 2, some "A"⟩]

/-- A configuration whose single type matches no entity of `exAdm`. -/
def cfgC5 : List (String × String) := [("LOCATION", "LOCATION\x7b\x7d")]

/-- A document for the overlap witness. -/
def docC6 : List Char := "abcdefgh".data

/-- Two overlapping decorated mentions: (0, 5) and (3, 7). -/
def msC6 : List Mention :=
  [⟨some 0, some 5, some "A"⟩, ⟨some 3, some 7, some "B"⟩]

/-- An ADM with one entity of a type absent from the global `MASKS`. -/
def admC9 : Adm := ⟨"ab".data, [⟨"FOO", [⟨some 0, some 1, none⟩]⟩]⟩

/-- A configuration for that unknown type. -/
def cfgC9 : List (String × String) := [("FOO", "FF")]

/-! ### Lemmas about `ngrams` -/

theorem filterMap_head_range_drop {α : Type} :
    ∀ (l : List α) (m : Nat), m ≤ l.length →
      ((List.range m).map (fun i => l.drop i)).filterMap List.head? = l.take m := by
  intro l
  induction l with
  | nil =>
    intro m hm
    have : m = 0 := by simpa using hm
    subst this
    simp
  | cons b t ih =>
    intro m hm
    match m with
    | 0 => simp
    | k + 1 =>
      rw [List.range_succ_eq_map, List.map_cons, List.map_map, List.filterMap_cons]
      have hmap : (List.range k).map ((fun i => (b :: t).drop i) ∘ Nat.succ) =
          (List.range k).map (fun i => t.drop i) := by
        refine List.map_congr_left ?_
        intro i _
        simp [Function.comp, List.drop_succ_cons]
      simp only [List.drop_zero, List.head?_cons, hmap]
      rw [ih k (by simpa using hm)]
      simp [List.take_succ_cons]

theorem ngrams_succ_eq_pyzipGo {α : Type} (l : List α) (m : Nat) :
    ngrams l (m + 1) = pyzipGo l ((List.range m).map (fun i => l.drop (i + 1))) := by
  unfold ngrams
  rw [List.range_succ_eq_map, List.map_cons, List.map_map]
  simp only [List.drop_zero, pyzip]
  rfl

theorem ngrams_recurrence {α : Type} (l : List α) (n : Nat) (hn : 1 ≤ n) :
    ngrams l n = if n ≤ l.length then l.take n :: ngrams l.tail n else [] := by
  obtain ⟨m, rfl⟩ : ∃ m, n = m + 1 := ⟨n - 1, by omega⟩
  rw [ngrams_succ_eq_pyzipGo l m]
  cases l with
  | nil =>
    rw [if_neg (by simp)]
    rfl
  | cons a t =>
    have hmap : (List.range m).map (fun i => (a :: t).drop (i + 1)) =
        (List.range m).map (fun i => t.drop i) :=
      List.map_congr_left (fun i _ => by simp [List.drop_succ_cons])
    rw [hmap]
    simp only [pyzipGo]
    rcases le_or_lt m t.length with h | h
    · have hguard : ((List.range m).map (fun i => t.drop i)).all (fun l => !l.isEmpty) = true := by
        simp only [List.all_eq_true, List.mem_map, List.mem_range]
        rintro x ⟨i, hi, rfl⟩
        have hne : t.drop i ≠ [] := by
          rw [ne_eq, List.drop_eq_nil_iff]
          omega
        simpa using hne
      rw [if_pos hguard, if_pos (by simp only [List.length_cons]; omega)]
      congr 1
      · rw [filterMap_head_range_drop t m h, List.take_succ_cons]
      · have hcols : (((List.range m).map (fun i => t.drop i)).map List.tail) =
            (List.range m).map (fun i => t.drop (i + 1)) := by
          rw [List.map_map]
          exact List.map_congr_left (fun i _ => by simp [Function.comp, List.tail_drop])
        rw [hcols, List.tail_cons, ← ngrams_succ_eq_pyzipGo t m]
    · have hguard : ((List.range m).map (fun i => t.drop i)).all (fun l => !l.isEmpty) = false := by
        simp only [List.all_eq_false]
        refine ⟨t.drop (t.length), ?_, by simp⟩
        exact List.mem_map.mpr ⟨t.length, List.mem_range.mpr h, rfl⟩
      rw [if_neg (by simp [hguard]), if_neg (by simp only [List.length_cons]; omega)]

theorem ngrams_closed_form {α : Type} (n : Nat) (hn : 1 ≤ n) :
    ∀ l : List α, ngrams l n = (List.range (l.length + 1 - n)).map (fun i => (l.drop i).take n) := by
  intro l
  induction l with
  | nil =>
    rw [ngrams_recurrence _ _ hn, if_neg (by simp only [List.length_nil]; omega)]
    have hz : ([] : List α).length + 1 - n = 0 := by simp only [List.length_nil]; omega
    rw [hz]
    simp
  | cons a t ih =>
    rw [ngrams_recurrence _ _ hn]
    rcases le_or_lt n (a :: t).length with h | h
    · rw [if_pos h, List.tail_cons, ih]
      have hlen : (a :: t).length + 1 - n = (t.length + 1 - n) + 1 := by
        simp only [List.length_cons] at h ⊢
        omega
      rw [hlen, List.range_succ_eq_map, List.map_cons, List.map_map]
      simp only [List.drop_zero]
      rfl
    · rw [if_neg (by omega)]
      have hz : (a :: t).length + 1 - n = 0 := by
        simp only [List.length_cons] at h ⊢
        omega
      rw [hz]
      simp

theorem ngrams_two_single {α : Type} (a : α) : ngrams [a] 2 = [] := by
  rw [ngrams_recurrence _ _ (by omega)]
  simp

theorem ngrams_two_cons {α : Type} (a b : α) (t : List α) :
    ngrams (a :: b :: t) 2 = [a, b] :: ngrams (b :: t) 2 := by
  rw [ngrams_recurrence _ _ (by omega), if_pos (by simp only [List.length_cons]; omega)]
  rfl

/-! ### The stitching pass equals its specification -/

theorem minExtent_eq_fst {p : Int × Int} (h : p.1 ≤ p.2) : minExtent p = p.1 :=
  min_eq_left h

theorem maxExtent_eq_snd {p : Int × Int} (h : p.1 ≤ p.2) : maxExtent p = p.2 :=
  max_eq_right h

theorem foldl_stitch (docData : List Char) :
    ∀ (l : List Mention) (hl : l ≠ []) (acc : List Char),
      (∀ m ∈ l, (extent m).1 ≤ (extent m).2) →
      (ngrams l 2).foldl (stitchStep docData) acc ++ maskLabel (l.getLast hl) ++
        pysliceFrom docData (maxExtent (extent (l.getLast hl)))
      = acc ++ stitchSpec docData l := by
  intro l
  induction l with
  | nil => intro hl; exact absurd rfl hl
  | cons a t ih =>
    intro _ acc hwf
    cases t with
    | nil =>
      rw [ngrams_two_single]
      simp only [List.foldl_nil, List.getLast_singleton, stitchSpec]
      rw [maxExtent_eq_snd (hwf a (by simp))]
      simp [List.append_assoc]
    | cons b t' =>
      rw [ngrams_two_cons, List.foldl_cons, List.getLast_cons_cons]
      rw [ih (List.cons_ne_nil b t') (stitchStep docData acc [a, b])
        (fun m hm => hwf m (List.mem_cons_of_mem a hm))]
      show stitchStep docData acc [a, b] ++ _ = _
      unfold stitchStep
      simp only []
      rw [maxExtent_eq_snd (hwf a (by simp)), minExtent_eq_fst (hwf b (by simp))]
      show _ = acc ++ stitchSpec docData (a :: b :: t')
      rw [show stitchSpec docData (a :: b :: t') =
        maskLabel a ++ pyslice docData (extent a).2 (extent b).1 ++
          stitchSpec docData (b :: t') from rfl]
      simp [List.append_assoc]

theorem redact_eq_redactSpec (docData : List Char) (mentions : List Mention)
    (hne : mentions ≠ []) (hwf : ∀ m ∈ mentions, (extent m).1 ≤ (extent m).2) :
    redact docData mentions = redactSpec docData mentions := by
  have hsne : List.insertionSort mentionLe mentions ≠ [] := by
    intro h0
    have hp := List.perm_insertionSort mentionLe mentions
    rw [h0] at hp
    exact hne (List.perm_nil.mp hp.symm)
  obtain ⟨first, rest, hfr⟩ := List.exists_cons_of_ne_nil hsne
  have hmem : ∀ m ∈ first :: rest, (extent m).1 ≤ (extent m).2 := by
    intro m hm
    exact hwf m ((List.mem_insertionSort mentionLe).mp (hfr ▸ hm))
  unfold redact redactSpec
  rw [hfr]
  dsimp only
  rw [if_pos (by simp [truthy])]
  rw [foldl_stitch docData (first :: rest) (List.cons_ne_nil first rest) _ hmem]
  rw [show pysliceTo docData (minExtent (extent first)) =
    pysliceTo docData (extent first).1 from by
      rw [minExtent_eq_fst (hmem first (by simp))]]

/-! ### Sortedness and stability of the sort in `redact` -/

/-- The sorted mention list is pairwise ascending in the key
`(start, end)`. -/
theorem insertionSort_extent_sorted (mentions : List Mention) :
    List.Pairwise mentionLe (List.insertionSort mentionLe mentions) :=
  List.sorted_insertionSort mentionLe mentions

/-- Stability of the sort in `redact`: the mentions carrying any fixed
key `(start, end)` appear in the sorted output exactly in their input
order. -/
theorem insertionSort_stable_filter (mentions : List Mention) (p : Int × Int) :
    (List.insertionSort mentionLe mentions).filter (fun m => extent m == p)
      = mentions.filter (fun m => extent m == p) := by
  have hcpair : (mentions.filter (fun m => extent m == p)).Pairwise mentionLe := by
    apply List.pairwise_of_forall_mem_list
    intro a ha b hb
    have ha' : extent a = p := by simpa using (List.mem_filter.mp ha).2
    have hb' : extent b = p := by simpa using (List.mem_filter.mp hb).2
    unfold mentionLe pairLe
    rw [ha', hb']
    omega
  have hsub2 : (mentions.filter (fun m => extent m == p)).Sublist
      (List.insertionSort mentionLe mentions) :=
    List.sublist_insertionSort hcpair (List.filter_sublist mentions)
  have hfix : (mentions.filter (fun m => extent m == p)).filter (fun m => extent m == p)
      = mentions.filter (fun m => extent m == p) :=
    List.filter_eq_self.mpr (fun a ha => (List.mem_filter.mp ha).2)
  have hsub3 : (mentions.filter (fun m => extent m == p)).Sublist
      ((List.insertionSort mentionLe mentions).filter (fun m => extent m == p)) := by
    conv_lhs => rw [← hfix]
    exact List.Sublist.filter _ hsub2
  have hperm : ((List.insertionSort mentionLe mentions).filter
      (fun m => extent m == p)).Perm (mentions.filter (fun m => extent m == p)) :=
    List.Perm.filter _ (List.perm_insertionSort mentionLe mentions)
  exact (hsub3.eq_of_length hperm.length_eq.symm).symm

/-! ### Association-list lookup lemmas -/

theorem lookup_cons_self {β : Type} (k : String) (v : β) (rest : List (String × β)) :
    ((k, v) :: rest).lookup k = some v := by
  simp [List.lookup_cons]

theorem lookup_cons_ne {β : Type} (k u : String) (v : β) (rest : List (String × β))
    (h : u ≠ k) : ((k, v) :: rest).lookup u = rest.lookup u := by
  simp [List.lookup_cons, beq_false_of_ne h]

theorem lookup_setIndex (idx : List (String × Nat)) (t : String) (n : Nat) (u : String) :
    (setIndex idx t n).lookup u =
      if u = t then (idx.lookup t).map (fun _ => n) else idx.lookup u := by
  induction idx with
  | nil => simp [setIndex]
  | cons kv rest ih =>
    obtain ⟨k, v⟩ := kv
    by_cases hkt : k = t
    · subst hkt
      show ((if k = k then (k, n) :: rest else _) : List (String × Nat)).lookup u = _
      rw [if_pos rfl]
      by_cases hu : u = k
      · subst hu
        rw [lookup_cons_self, if_pos rfl, lookup_cons_self]
        rfl
      · rw [lookup_cons_ne _ _ _ _ hu, if_neg hu, lookup_cons_ne _ _ _ _ hu]
    · show ((if k = t then (k, n) :: rest else (k, v) :: setIndex rest t n) :
          List (String × Nat)).lookup u = _
      rw [if_neg hkt]
      by_cases hu : u = k
      · subst hu
        have hut : u ≠ t := hkt
        rw [lookup_cons_self, if_neg hut, lookup_cons_self]
      · rw [lookup_cons_ne _ _ _ _ hu, ih, lookup_cons_ne _ _ _ _ hu,
          lookup_cons_ne _ _ _ _ (fun h => hkt h.symm)]

/-- Lookup in a constant-valued copy of an association list. -/
theorem lookup_map_const {β γ : Type} (l : List (String × β)) (c : γ) (t : String) :
    (l.map (fun kv => (kv.1, c))).lookup t = (l.lookup t).map (fun _ => c) := by
  induction l with
  | nil => simp
  | cons kv rest ih =>
    obtain ⟨k, v⟩ := kv
    by_cases hu : t = k
    · subst hu
      show ((t, c) :: rest.map (fun kv => (kv.1, c))).lookup t = _
      rw [lookup_cons_self, lookup_cons_self]
      rfl
    · show ((k, c) :: rest.map (fun kv => (kv.1, c))).lookup t = _
      rw [lookup_cons_ne _ _ _ _ hu, ih, lookup_cons_ne _ _ _ _ hu]

theorem lookup_initIndex (t : String) :
    initIndex.lookup t = (MASKS.lookup t).map (fun _ => 0) :=
  lookup_map_const MASKS 0 t

/-! ### The `masked_mentions` fold: case analyses -/

theorem countType_cons (t : String) (e : Entity) (l : List Entity) :
    countType t (e :: l) = (if e.type = t then 1 else 0) + countType t l := by
  by_cases h : e.type = t
  · simp only [countType, List.filter_cons, h]
    simp
    omega
  · simp only [countType, List.filter_cons]
    simp [h]

/-- Complete description of a successful `decorateEntity` step. -/
theorem decorateEntity_ok_cases (masks : List (String × String))
    (idx : List (String × Nat)) (e : Entity) (idx' : List (String × Nat))
    (e' : Entity) (ys : List Mention)
    (h : decorateEntity masks idx e = .ok (idx', e', ys)) :
    (masks.lookup e.type = none ∧ idx' = idx ∧ e' = e ∧ ys = []) ∨
    (∃ tmpl n, masks.lookup e.type = some tmpl ∧ idx.lookup e.type = some n ∧
      idx' = setIndex idx e.type (n + 1) ∧
      ((e.mentions = [] ∧ e' = e ∧ ys = []) ∨
       (e.mentions ≠ [] ∧ ∃ label, pyformat tmpl (n + 1) = .ok label ∧
         e' = { e with mentions := e.mentions.map (fun m => { m with mask := some label }) } ∧
         ys = e.mentions.map (fun m => { m with mask := some label })))) := by
  cases hm : masks.lookup e.type with
  | none =>
    simp only [decorateEntity, hm, Except.ok.injEq, Prod.mk.injEq] at h
    obtain ⟨h1, h2, h3⟩ := h
    exact Or.inl ⟨rfl, h1.symm, h2.symm, h3.symm⟩
  | some tmpl =>
    cases hidx : idx.lookup e.type with
    | none =>
      simp only [decorateEntity, hm, hidx] at h
      exact Except.noConfusion h
    | some n =>
      refine Or.inr ⟨tmpl, n, rfl, rfl, ?_⟩
      cases hms : e.mentions with
      | nil =>
        simp only [decorateEntity, hm, hidx, hms, Except.ok.injEq, Prod.mk.injEq] at h
        obtain ⟨h1, h2, h3⟩ := h
        exact ⟨h1.symm, Or.inl ⟨rfl, h2.symm, h3.symm⟩⟩
      | cons m ms =>
        cases hfmt : pyformat tmpl (n + 1) with
        | error msg =>
          simp only [decorateEntity, hm, hidx, hms, hfmt] at h
          exact Except.noConfusion h
        | ok label =>
          simp only [decorateEntity, hm, hidx, hms, hfmt, Except.ok.injEq,
            Prod.mk.injEq] at h
          obtain ⟨h1, h2, h3⟩ := h
          exact ⟨h1.symm, Or.inr ⟨List.cons_ne_nil m ms, label, rfl, h2.symm, h3.symm⟩⟩

/-- A configured entity whose type is missing from the counter dict makes
`decorateEntity` raise the counter `KeyError`. -/
theorem decorateEntity_keyerror (masks : List (String × String))
    (idx : List (String × Nat)) (e : Entity) (tmpl : String)
    (hm : masks.lookup e.type = some tmpl) (hidx : idx.lookup e.type = none) :
    decorateEntity masks idx e = .error ("KeyError: " ++ e.type) := by
  simp only [decorateEntity, hm, hidx]

/-- A successful `decorateEntity` step preserves absence of a key from
the counter dict. -/
theorem decorateEntity_ok_lookup_none (masks : List (String × String))
    (idx : List (String × Nat)) (e : Entity) (idx' : List (String × Nat))
    (e' : Entity) (ys : List Mention) (t : String)
    (h : decorateEntity masks idx e = .ok (idx', e', ys))
    (ht : idx.lookup t = none) : idx'.lookup t = none := by
  rcases decorateEntity_ok_cases masks idx e idx' e' ys h with
    ⟨_, rfl, _, _⟩ | ⟨tmpl, n, _, hidx, rfl, _⟩
  · exact ht
  · rw [lookup_setIndex]
    by_cases hte : t = e.type
    · subst hte
      rw [ht] at hidx
      cases hidx
    · rw [if_neg hte]
      exact ht

/-- Specification of the successful run of the `masked_mentions` fold:
entity count is preserved; unconfigured entities are untouched;
a configured entity with no mentions is untouched (its counter still
advances); a configured entity with mentions has every mention's `mask`
key set to its type's template formatted with the counter value, which
equals the base counter plus the number of entities of that type seen up
to and including this one. -/
theorem maskedMentionsGo_ok (masks : List (String × String)) :
    ∀ (es : List Entity) (idx : List (String × Nat)) (es' : List Entity) (ys : List Mention),
      maskedMentionsGo masks idx es = .ok (es', ys) →
      es'.length = es.length ∧
      ∀ (i : Nat) (e : Entity), es[i]? = some e →
        (masks.lookup e.type = none → es'[i]? = some e) ∧
        ∀ tmpl, masks.lookup e.type = some tmpl →
          ∃ n, idx.lookup e.type = some n ∧
            (e.mentions = [] → es'[i]? = some e) ∧
            (e.mentions ≠ [] → ∃ label,
              pyformat tmpl (n + countType e.type (es.take (i + 1))) = .ok label ∧
              es'[i]? =
                some ({ e with mentions := e.mentions.map (fun m => { m with mask := some label }) })) := by
  intro es
  induction es with
  | nil =>
    intro idx es' ys h
    simp only [maskedMentionsGo, Except.ok.injEq, Prod.mk.injEq] at h
    obtain ⟨h1, _⟩ := h
    subst h1
    refine ⟨rfl, ?_⟩
    intro i e he
    simp at he
  | cons e0 rest ih =>
    intro idx es' ys h
    cases hd : decorateEntity masks idx e0 with
    | error msg =>
      simp only [maskedMentionsGo, hd] at h
      exact Except.noConfusion h
    | ok v =>
      obtain ⟨idx1, e0', ys0⟩ := v
      simp only [maskedMentionsGo, hd] at h
      cases hrec : maskedMentionsGo masks idx1 rest with
      | error pr =>
        obtain ⟨msg, rest2⟩ := pr
        rw [hrec] at h
        simp only [] at h
        exact Except.noConfusion h
      | ok pr =>
        obtain ⟨rest', ys1⟩ := pr
        rw [hrec] at h
        simp only [Except.ok.injEq, Prod.mk.injEq] at h
        obtain ⟨h1, _⟩ := h
        subst h1
        obtain ⟨hlen, hspec⟩ := ih idx1 rest' ys1 hrec
        refine ⟨by simp [hlen], ?_⟩
        intro i e he
        cases i with
        | zero =>
          simp only [List.getElem?_cons_zero, Option.some.injEq] at he
          subst he
          rcases decorateEntity_ok_cases masks idx e0 idx1 e0' ys0 hd with
            ⟨hm, _, rfl, _⟩ | ⟨tmpl0, n0, hm, hidx, _, hcase⟩
          · constructor
            · intro _
              simp
            · intro tmpl htmpl
              rw [hm] at htmpl
              cases htmpl
          · constructor
            · intro hnone
              rw [hm] at hnone
              cases hnone
            · intro tmpl htmpl
              rw [hm] at htmpl
              obtain rfl : tmpl0 = tmpl := by cases htmpl; rfl
              refine ⟨n0, hidx, ?_, ?_⟩
              · intro hms
                rcases hcase with ⟨_, rfl, _⟩ | ⟨hne, _⟩
                · simp
                · exact absurd hms hne
              · intro hne
                rcases hcase with ⟨hms, _, _⟩ | ⟨_, label, hfmt, rfl, _⟩
                · exact absurd hms hne
                · refine ⟨label, ?_, by simp⟩
                  rw [List.take_succ_cons]
                  rw [show (e0 :: rest.take 0) = [e0] from by simp]
                  rw [show countType e0.type [e0] = 1 from by
                    simp [countType, List.filter_cons]]
                  exact hfmt
        | succ j =>
          simp only [List.getElem?_cons_succ] at he
          have hsj := hspec j e he
          constructor
          · intro hnone
            rw [List.getElem?_cons_succ]
            exact (hsj.1) hnone
          · intro tmpl htmpl
            obtain ⟨n1, hn1, hempty, hnonempty⟩ := hsj.2 tmpl htmpl
            rcases decorateEntity_ok_cases masks idx e0 idx1 e0' ys0 hd with
              ⟨hm0, rfl, _, _⟩ | ⟨tmpl0, n0, hm0, hidx0, rfl, _⟩
            · -- head entity unconfigured: counter dict unchanged
              have htype : e0.type ≠ e.type := by
                intro hty
                rw [hty, htmpl] at hm0
                cases hm0
              refine ⟨n1, hn1, fun hms => by
                rw [List.getElem?_cons_succ]; exact hempty hms, fun hne => ?_⟩
              obtain ⟨label, hfmt, hget⟩ := hnonempty hne
              refine ⟨label, ?_, by rw [List.getElem?_cons_succ]; exact hget⟩
              rw [List.take_succ_cons, countType_cons, if_neg htype]
              simpa using hfmt
            · -- head entity configured: its counter advanced by one
              by_cases htype : e0.type = e.type
              · have hidx1 : (setIndex idx e0.type (n0 + 1)).lookup e.type
                    = some (n0 + 1) := by
                  rw [lookup_setIndex, if_pos htype.symm, hidx0]
                  rfl
                have hn0 : idx.lookup e.type = some n0 := by rw [← htype, hidx0]
                rw [hidx1] at hn1
                obtain rfl : n0 + 1 = n1 := by cases hn1; rfl
                refine ⟨n0, hn0, fun hms => by
                  rw [List.getElem?_cons_succ]; exact hempty hms, fun hne => ?_⟩
                obtain ⟨label, hfmt, hget⟩ := hnonempty hne
                refine ⟨label, ?_, by rw [List.getElem?_cons_succ]; exact hget⟩
                rw [List.take_succ_cons, countType_cons, if_pos htype]
                rw [show n0 + (1 + countType e.type (rest.take (j + 1)))
                  = n0 + 1 + countType e.type (rest.take (j + 1)) from by omega]
                exact hfmt
              · have hidx1 : (setIndex idx e0.type (n0 + 1)).lookup e.type
                    = idx.lookup e.type := by
                  rw [lookup_setIndex, if_neg (fun hh => htype hh.symm)]
                rw [hidx1] at hn1
                refine ⟨n1, hn1, fun hms => by
                  rw [List.getElem?_cons_succ]; exact hempty hms, fun hne => ?_⟩
                obtain ⟨label, hfmt, hget⟩ := hnonempty hne
                refine ⟨label, ?_, by rw [List.getElem?_cons_succ]; exact hget⟩
                rw [List.take_succ_cons, countType_cons, if_neg htype]
                simpa using hfmt

/-- If some entity's type is configured but missing from the counter
dict, and a successful run never adds keys, the fold raises. -/
theorem maskedMentionsGo_error_of_mem (masks : List (String × String)) :
    ∀ (es : List Entity) (idx : List (String × Nat)) (t : String),
      idx.lookup t = none →
      (∃ e ∈ es, e.type = t ∧ (masks.lookup t).isSome) →
      ∃ msg es2, maskedMentionsGo masks idx es = .error (msg, es2) := by
  intro es
  induction es with
  | nil =>
    rintro idx t _ ⟨e, he, _⟩
    simp at he
  | cons e0 rest ih =>
    rintro idx t hnone ⟨e, he, hty, hsome⟩
    cases hd : decorateEntity masks idx e0 with
    | error msg =>
      exact ⟨msg, e0 :: rest, by simp only [maskedMentionsGo, hd]⟩
    | ok v =>
      obtain ⟨idx1, e0', ys0⟩ := v
      rcases List.mem_cons.mp he with rfl | hmem
      · obtain ⟨tmpl, hm⟩ := Option.isSome_iff_exists.mp hsome
        have hke : decorateEntity masks idx e = .error ("KeyError: " ++ e.type) :=
          decorateEntity_keyerror masks idx e tmpl (by rw [hty]; exact hm)
            (by rw [hty]; exact hnone)
        rw [hke] at hd
        cases hd
      · have hnone1 : idx1.lookup t = none :=
          decorateEntity_ok_lookup_none masks idx e0 idx1 e0' ys0 t hd hnone
        obtain ⟨msg, rest2, hrec⟩ := ih idx1 t hnone1 ⟨e, hmem, hty, hsome⟩
        exact ⟨msg, e0' :: rest2, by simp only [maskedMentionsGo, hd, hrec]⟩

/-- When no entity's type is configured, the fold yields nothing and
leaves every entity untouched. -/
theorem maskedMentionsGo_no_configured (masks : List (String × String)) :
    ∀ (es : List Entity) (idx : List (String × Nat)),
      (∀ e ∈ es, masks.lookup e.type = none) →
      maskedMentionsGo masks idx es = .ok (es, []) := by
  intro es
  induction es with
  | nil => intro idx _; rfl
  | cons e0 rest ih =>
    intro idx h
    have hm : masks.lookup e0.type = none := h e0 (by simp)
    have hd : decorateEntity masks idx e0 = .ok (idx, e0, []) := by
      simp only [decorateEntity, hm]
    have hrec := ih idx (fun e he => h e (List.mem_cons_of_mem e0 he))
    simp only [maskedMentionsGo, hd, hrec]
    simp

/-! ### Slice facts -/

/-- A non-negative, non-increasing slice is empty: the degenerate
"between" gap of overlapping mentions contributes nothing. -/
theorem pyslice_empty_of_le (s : List Char) (a b : Int) (ha : 0 ≤ a) (hb : 0 ≤ b)
    (hba : b ≤ a) : pyslice s a b = [] := by
  simp only [pyslice]
  rw [if_neg (by omega), if_neg (by omega)]
  apply List.drop_eq_nil_iff.mpr
  rw [List.length_take]
  omega

/-- Python `s[:-1]` removes the final element. -/
theorem pysliceTo_neg_one (s : List Char) : pysliceTo s (-1) = s.dropLast := by
  simp only [pysliceTo, pyslice]
  rw [if_neg (by omega), if_pos (by omega), List.dropLast_eq_take]
  have h0 : min (Int.toNat 0) s.length = 0 := by simp
  rw [h0, List.drop_zero]
  congr 1
  omega

/-- Python `s[-1:]` keeps only the final element (everything from index
`length - 1`). -/
theorem pysliceFrom_neg_one (s : List Char) :
    pysliceFrom s (-1) = s.drop (s.length - 1) := by
  simp only [pysliceFrom, pyslice]
  rw [if_pos (by omega), if_neg (by omega)]
  have hn : min (Int.toNat s.length) s.length = s.length := by simp
  rw [hn, List.take_length]
  congr 1
  omega

/-- `redact` on no mentions returns the document unchanged. -/
theorem redact_nil (docData : List Char) : redact docData [] = docData :=
  rfl

/-! ### Claims -/

/-- C3 (counterexample): with the money mention at offsets (35, 45) as
the spec's Example 1 states them, `mask` returns
"PERSON1 is accused of stealing $MONEY-AMOUNT" — the dollar sign stays
and the final period is swallowed — not the output the claim asserts. -/
theorem mask_example_at_35_45 :
    mask exAdm35 exCfg = .ok (("PERSON1 is accused of stealing $MONEY-AMOUNT").data) ∧
    mask exAdm35 exCfg ≠ .ok exOut := by
  constructor
  · decide
  · decide

/-- C3 (amended): with the mentions at the offsets the document (and the
source's docstring) actually has — PERSON at (0, 10) and
IDENTIFIER:MONEY at (34, 44) — `mask` returns exactly
"PERSON1 is accused of stealing MONEY-AMOUNT.". -/
theorem mask_example_exact :
    mask exAdm exCfg = .ok exOut := by
  decide

/-- C8: for a materialized sequence of length N and window size n ≥ 1,
`ngrams` yields exactly N − n + 1 windows (zero when N < n), the i-th
being the n consecutive elements starting at position i. -/
theorem ngrams_windows (α : Type) (l : List α) (n : Nat) (hn : 1 ≤ n) :
    (ngrams l n).length = l.length + 1 - n ∧
    ngrams l n = (List.range (l.length + 1 - n)).map (fun i => (l.drop i).take n) ∧
    (l.length < n → ngrams l n = []) := by
  have h := ngrams_closed_form n hn l
  refine ⟨by rw [h]; simp, h, fun hlt => ?_⟩
  rw [h, show l.length + 1 - n = 0 from by omega]
  simp

/-- C8 (witness): the five-element sequence with window size 2. -/
theorem ngrams_windows_witness :
    (1 ≤ 2) ∧
    ((ngrams [0, 1, 2, 3, 4] 2).length = [0, 1, 2, 3, 4].length + 1 - 2 ∧
      ngrams [0, 1, 2, 3, 4] 2 =
        (List.range ([0, 1, 2, 3, 4].length + 1 - 2)).map
          (fun i => ([0, 1, 2, 3, 4].drop i).take 2) ∧
      ([0, 1, 2, 3, 4].length < 2 → ngrams [0, 1, 2, 3, 4] 2 = [])) :=
  ⟨by decide, ngrams_windows Nat [0, 1, 2, 3, 4] 2 (by decide)⟩

/-- C5: masking with the empty configuration returns the document
unchanged for every ADM, and more generally whenever the decorated
mention list comes out empty, `mask` returns the document unchanged. -/
theorem mask_noop_on_empty :
    (∀ adm : Adm, mask adm [] = .ok adm.data) ∧
    (∀ (adm : Adm) (masks : List (String × String)) (adm' : Adm),
      masked_mentions adm masks = .ok (adm', []) → mask adm masks = .ok adm.data) := by
  constructor
  · intro adm
    have h := maskedMentionsGo_no_configured [] adm.entities initIndex (fun e _ => rfl)
    simp only [mask, maskFull, masked_mentions, h]
    rfl
  · intro adm masks adm' hok
    simp only [mask, maskFull, hok]
    rfl

/-- C5 (witness): the example document with the empty configuration and
with a configuration matching none of its entity types. -/
theorem mask_noop_on_empty_witness :
    masked_mentions exAdm cfgC5 = .ok (exAdm, []) ∧
    mask exAdm cfgC5 = .ok exAdm.data ∧
    mask exAdm [] = .ok exAdm.data :=
  ⟨by decide, mask_noop_on_empty.2 exAdm cfgC5 exAdm (by decide),
    mask_noop_on_empty.1 exAdm⟩

/-- C7 (counterexample): with a valid PERSON template followed by a
LOCATION template whose replacement field demands an absent second
positional argument, `mask` raises the configuration error — but only
after the PERSON mention has already been processed: its `mask` key is
already written in the caller's ADM when the error escapes, refuting
"fails before any mention is processed". -/
theorem mask_config_error_after_decoration :
    (maskFull admC7 cfgC7).1
      = .error "IndexError: Replacement index out of range for positional args tuple" ∧
    (((maskFull admC7 cfgC7).2.entities.getD 0 ⟨"", []⟩).mentions.getD 0
        ⟨none, none, none⟩).mask = some "PERSON1" := by
  constructor
  · decide
  · decide

/-- C7 (amended): `mask` either returns the complete masked string — the
full stitch of everything `masked_mentions` yielded — or propagates the
error `masked_mentions` raised while being consumed by `sorted`, before
any output string is assembled. -/
theorem mask_complete_or_error_before_output (adm : Adm) (masks : List (String × String)) :
    (∃ (adm' : Adm) (ys : List Mention), masked_mentions adm masks = .ok (adm', ys) ∧
      maskFull adm masks = (.ok (redact adm.data ys), adm')) ∨
    (∃ (msg : String) (adm' : Adm), masked_mentions adm masks = .error (msg, adm') ∧
      maskFull adm masks = (.error msg, adm')) := by
  cases h : masked_mentions adm masks with
  | error pr =>
    obtain ⟨msg, adm'⟩ := pr
    exact Or.inr ⟨msg, adm', rfl, by simp only [maskFull, h]⟩
  | ok pr =>
    obtain ⟨adm', ys⟩ := pr
    exact Or.inl ⟨adm', ys, rfl, by simp only [maskFull, h]⟩

/-- C9: a configured entity type absent from the module-level `MASKS`
dict makes `masked_mentions` raise (and `mask` propagate) an error,
because the counter dict is initialized from `MASKS`, not from the
`masks` argument; at the offending entity the error is precisely the
counter `KeyError`. -/
theorem masked_mentions_keyerror_unknown_type (masks : List (String × String))
    (t : String) (adm : Adm)
    (hmask : (masks.lookup t).isSome) (hglobal : MASKS.lookup t = none)
    (hmem : ∃ e ∈ adm.entities, e.type = t) :
    (∃ (msg : String) (adm2 : Adm), masked_mentions adm masks = .error (msg, adm2) ∧
      mask adm masks = .error msg) ∧
    (∀ (idx : List (String × Nat)) (e : Entity), e.type = t → idx.lookup t = none →
      decorateEntity masks idx e = .error ("KeyError: " ++ t)) := by
  constructor
  · have hinit : initIndex.lookup t = none := by
      rw [lookup_initIndex, hglobal]
      rfl
    obtain ⟨e, he, hty⟩ := hmem
    obtain ⟨msg, es2, hgo⟩ :=
      maskedMentionsGo_error_of_mem masks adm.entities initIndex t hinit ⟨e, he, hty, hmask⟩
    refine ⟨msg, { adm with entities := es2 }, ?_, ?_⟩
    · simp only [masked_mentions, hgo]
    · simp only [mask, maskFull, masked_mentions, hgo]
  · intro idx e hty hidx
    obtain ⟨tmpl, hm⟩ := Option.isSome_iff_exists.mp hmask
    have hke := decorateEntity_keyerror masks idx e tmpl (by rw [hty]; exact hm)
      (by rw [hty]; exact hidx)
    rw [hty] at hke
    exact hke

/-- C9 (witness): configuring the unknown type FOO and feeding one FOO
entity. -/
theorem masked_mentions_keyerror_unknown_type_witness :
    ((cfgC9.lookup "FOO").isSome ∧ MASKS.lookup "FOO" = none ∧
      (∃ e ∈ admC9.entities, e.type = "FOO")) ∧
    ((∃ (msg : String) (adm2 : Adm), masked_mentions admC9 cfgC9 = .error (msg, adm2) ∧
      mask admC9 cfgC9 = .error msg) ∧
    (∀ (idx : List (String × Nat)) (e : Entity), e.type = "FOO" →
      idx.lookup "FOO" = none →
      decorateEntity cfgC9 idx e = .error ("KeyError: " ++ "FOO"))) :=
  ⟨⟨by decide, by decide, ⟨⟨"FOO", [⟨some 0, some 1, none⟩]⟩, by decide, rfl⟩⟩,
    masked_mentions_keyerror_unknown_type cfgC9 "FOO" admC9 (by decide) (by decide)
      ⟨⟨"FOO", [⟨some 0, some 1, none⟩]⟩, by decide, rfl⟩⟩

/-- C1: for every document and non-empty list of decorated mentions
whose offsets are present with 0 ≤ start ≤ end, the stitching pass of
`mask` returns exactly the claimed formula over the stably sorted
mentions — the prefix up to the first sorted mention's start, then for
each consecutive pair the current label and the substring from current's
end to next's start, then the last label and the suffix from its end —
and the sort is ascending in the key (start, end) with mentions of equal
keys kept in input order. -/
theorem redact_stitch_formula (docData : List Char) (mentions : List Mention)
    (hne : mentions ≠ [])
    (_hdec : ∀ m ∈ mentions, m.mask.isSome)
    (hwf : ∀ m ∈ mentions, ∃ s e : Int, m.startOffset = some s ∧ m.endOffset = some e ∧
      0 ≤ s ∧ s ≤ e) :
    redact docData mentions = redactSpec docData mentions ∧
    List.Pairwise mentionLe (List.insertionSort mentionLe mentions) ∧
    ∀ p : Int × Int,
      (List.insertionSort mentionLe mentions).filter (fun m => extent m == p)
        = mentions.filter (fun m => extent m == p) := by
  refine ⟨?_, insertionSort_extent_sorted mentions,
    fun p => insertionSort_stable_filter mentions p⟩
  apply redact_eq_redactSpec docData mentions hne
  intro m hm
  obtain ⟨os, oe, hs, he, h0, hse⟩ := hwf m hm
  simp [extent, hs, he, hse]

/-- C1 (witness): two decorated mentions given out of textual order. -/
theorem redact_stitch_formula_witness :
    (msC1 ≠ [] ∧ (∀ m ∈ msC1, m.mask.isSome) ∧
      (∀ m ∈ msC1, ∃ s e : Int, m.startOffset = some s ∧ m.endOffset = some e ∧
        0 ≤ s ∧ s ≤ e)) ∧
    (redact dC1 msC1 = redactSpec dC1 msC1 ∧
      List.Pairwise mentionLe (List.insertionSort mentionLe msC1) ∧
      ∀ p : Int × Int,
        (List.insertionSort mentionLe msC1).filter (fun m => extent m == p)
          = msC1.filter (fun m => extent m == p)) :=
  ⟨⟨by decide, by decide, by
      intro m hm
      rcases List.mem_cons.mp hm with rfl | hm2
      · exact ⟨5, 7, rfl, rfl, by omega, by omega⟩
      · rcases List.mem_cons.mp hm2 with rfl | hm3
        · exact ⟨0, 2, rfl, rfl, by omega, by omega⟩
        · simp at hm3⟩,
    redact_stitch_formula dC1 msC1 (by decide) (by decide) (by
      intro m hm
      rcases List.mem_cons.mp hm with rfl | hm2
      · exact ⟨5, 7, rfl, rfl, by omega, by omega⟩
      · rcases List.mem_cons.mp hm2 with rfl | hm3
        · exact ⟨0, 2, rfl, rfl, by omega, by omega⟩
        · simp at hm3)⟩

/-- C2 (counterexample): an entity with two mentions shows the per-type
counter advances once per entity, not once per mention: both emitted
PERSON mentions carry index 1, so the second emitted mention of the type
does not receive index 2 and the indices are not strictly increasing. -/
theorem masked_mentions_shared_entity_index :
    masked_mentions admC2cx cfgPerson = .ok
      (⟨"abcdef".data, [⟨"PERSON", [⟨some 0, some 1, some "PERSON1"⟩,
        ⟨some 3, some 4, some "PERSON1"⟩]⟩]⟩,
       [⟨some 0, some 1, some "PERSON1"⟩, ⟨some 3, some 4, some "PERSON1"⟩]) ∧
    ([⟨some 0, some 1, some "PERSON1"⟩, ⟨some 3, some 4, some "PERSON1"⟩] :
      List Mention).map Mention.mask ≠ [some "PERSON1", some "PERSON2"] := by
  constructor
  · decide
  · decide

/-- C2 (amended): the counter of each configured type starts at 0 and is
incremented once per entity of that type, in extraction order, before
that entity's labels are formatted: the i-th entity, when configured and
carrying mentions, has all its mentions decorated with its template
formatted at the number of entities of its type among the first i + 1 —
so per type the indices are 1, 2, 3, … over entities in extraction
order, independent of offsets, and the run is deterministic. -/
theorem masked_mentions_per_entity_indices (adm : Adm) (masks : List (String × String))
    (adm' : Adm) (ys : List Mention)
    (hok : masked_mentions adm masks = .ok (adm', ys)) :
    adm'.data = adm.data ∧ adm'.entities.length = adm.entities.length ∧
    ∀ (i : Nat) (e : Entity), adm.entities[i]? = some e →
      ∀ tmpl, masks.lookup e.type = some tmpl → e.mentions ≠ [] →
      ∃ label, pyformat tmpl (countType e.type (adm.entities.take (i + 1))) = .ok label ∧
        adm'.entities[i]? =
          some ({ e with mentions :=
            e.mentions.map (fun m => { m with mask := some label }) }) := by
  cases hgo : maskedMentionsGo masks initIndex adm.entities with
  | error pr =>
    simp only [masked_mentions, hgo] at hok
    exact Except.noConfusion hok
  | ok pr =>
    obtain ⟨es', ys'⟩ := pr
    simp only [masked_mentions, hgo, Except.ok.injEq, Prod.mk.injEq] at hok
    obtain ⟨h1, _⟩ := hok
    subst h1
    obtain ⟨hlen, hspec⟩ := maskedMentionsGo_ok masks adm.entities initIndex es' ys' hgo
    refine ⟨rfl, hlen, ?_⟩
    intro i e he tmpl htmpl hne
    obtain ⟨n, hn, _, hnonempty⟩ := (hspec i e he).2 tmpl htmpl
    have hn0 : n = 0 := by
      rw [lookup_initIndex] at hn
      cases hmk : MASKS.lookup e.type with
      | none => rw [hmk] at hn; cases hn
      | some v =>
        rw [hmk] at hn
        have hn2 : some 0 = some n := hn
        injection hn2 with hn3
        omega
    subst hn0
    obtain ⟨label, hfmt, hget⟩ := hnonempty hne
    exact ⟨label, by simpa using hfmt, hget⟩

/-- C2 (witness): PERSON, LOCATION, PERSON entities in extraction order
with a PERSON-only configuration receive PERSON1 and PERSON2. -/
theorem masked_mentions_per_entity_indices_witness :
    masked_mentions admC2w cfgPerson = .ok (admC2wMasked, ysC2w) ∧
    (admC2wMasked.data = admC2w.data ∧
      admC2wMasked.entities.length = admC2w.entities.length ∧
      ∀ (i : Nat) (e : Entity), admC2w.entities[i]? = some e →
        ∀ tmpl, cfgPerson.lookup e.type = some tmpl → e.mentions ≠ [] →
        ∃ label, pyformat tmpl (countType e.type (admC2w.entities.take (i + 1))) = .ok label ∧
          admC2wMasked.entities[i]? =
            some ({ e with mentions :=
              e.mentions.map (fun m => { m with mask := some label }) })) :=
  ⟨by decide,
    masked_mentions_per_entity_indices admC2w cfgPerson admC2wMasked ysC2w (by decide)⟩

/-- C4 (counterexample): masking a lone offset-less PERSON mention over
the document "ab" yields "aPERSON1b" — the document except its last
character, then the label, then the last character — not the label
followed by the entire document. -/
theorem mask_sentinel_output_not_label_document :
    mask admC4 cfgPerson = .ok ("aPERSON1b".data) ∧
    mask admC4 cfgPerson ≠ .ok ("PERSON1ab".data) := by
  constructor
  · decide
  · decide

/-- C4 (amended): a mention lacking both offsets has extent (−1, −1) and
sorts strictly before every mention with a valid (non-negative) start
offset; and when the decorated sequence is exactly one such offset-less
mention of a configured type, `mask` does not crash but — through
Python's negative-index slicing — returns the document without its final
character, then the mask label, then the final character (the label
alone on an empty document). -/
theorem mask_sentinel_degenerate (d : List Char) (t tmpl label : String)
    (hg : (MASKS.lookup t).isSome)
    (hfmt : pyformat tmpl 1 = .ok label) :
    mask ⟨d, [⟨t, [⟨none, none, none⟩]⟩]⟩ [(t, tmpl)]
      = .ok (d.dropLast ++ label.data ++ d.drop (d.length - 1)) ∧
    extent ⟨none, none, none⟩ = (-1, -1) ∧
    (∀ (m : Mention) (s : Int), m.startOffset = some s → 0 ≤ s →
      mentionLe ⟨none, none, none⟩ m ∧ ¬ mentionLe m ⟨none, none, none⟩) := by
  refine ⟨?_, rfl, ?_⟩
  · have h1 : ([(t, tmpl)] : List (String × String)).lookup t = some tmpl :=
      lookup_cons_self t tmpl []
    have h2 : initIndex.lookup t = some 0 := by
      rw [lookup_initIndex]
      obtain ⟨v, hv⟩ := Option.isSome_iff_exists.mp hg
      rw [hv]
      rfl
    have hd : decorateEntity [(t, tmpl)] initIndex ⟨t, [⟨none, none, none⟩]⟩
        = .ok (setIndex initIndex t 1, ⟨t, [⟨none, none, some label⟩]⟩,
               [⟨none, none, some label⟩]) := by
      simp only [decorateEntity, h1, h2, hfmt, List.map]
    have hgo : maskedMentionsGo [(t, tmpl)] initIndex [⟨t, [⟨none, none, none⟩]⟩]
        = .ok ([⟨t, [⟨none, none, some label⟩]⟩], [⟨none, none, some label⟩]) := by
      simp only [maskedMentionsGo, hd]
      rfl
    simp only [mask, maskFull, masked_mentions, hgo]
    congr 1
    rw [redact_eq_redactSpec d [⟨none, none, some label⟩] (by simp)
      (by intro m hm; simp at hm; subst hm; simp [extent])]
    have hsort : List.insertionSort mentionLe
        [(⟨none, none, some label⟩ : Mention)] = [⟨none, none, some label⟩] := rfl
    simp only [redactSpec, hsort, stitchSpec]
    have hext : extent (⟨none, none, some label⟩ : Mention) = (-1, -1) := rfl
    rw [hext]
    show pysliceTo d (-1) ++ (maskLabel ⟨none, none, some label⟩ ++ pysliceFrom d (-1)) = _
    rw [pysliceTo_neg_one, pysliceFrom_neg_one]
    simp [maskLabel]
  · intro m s hs h0
    constructor
    · unfold mentionLe pairLe extent
      simp only [hs, Option.getD_some, Option.getD_none]
      omega
    · intro hcon
      unfold mentionLe pairLe extent at hcon
      simp only [hs, Option.getD_some, Option.getD_none] at hcon
      omega

/-- C4 (witness): the document "ab" with one offset-less PERSON mention
gives "aPERSON1b". -/
theorem mask_sentinel_degenerate_witness :
    ((MASKS.lookup "PERSON").isSome ∧ pyformat "PERSON\x7b\x7d" 1 = .ok "PERSON1") ∧
    (mask ⟨"ab".data, [⟨"PERSON", [⟨none, none, none⟩]⟩]⟩ [("PERSON", "PERSON\x7b\x7d")]
        = .ok ("ab".data.dropLast ++ "PERSON1".data ++
            "ab".data.drop ("ab".data.length - 1)) ∧
      extent ⟨none, none, none⟩ = (-1, -1) ∧
      (∀ (m : Mention) (s : Int), m.startOffset = some s → 0 ≤ s →
        mentionLe ⟨none, none, none⟩ m ∧ ¬ mentionLe m ⟨none, none, none⟩)) :=
  ⟨⟨by decide, by decide⟩,
    mask_sentinel_degenerate "ab".data "PERSON" "PERSON\x7b\x7d" "PERSON1"
      (by decide) (by decide)⟩

/-- C6: on any input whose mentions each either carry both offsets with
0 ≤ start ≤ end or carry none (the documented data model), every
consecutive pair of the sorted list that overlaps — next's start strictly
below current's end — contributes an empty between-gap slice to the
output: the stitching never reverses text, and being a total function it
raises nothing. -/
theorem redact_overlap_gap_empty (docData : List Char) (mentions : List Mention)
    (hwf : ∀ m ∈ mentions,
      (∃ s e : Int, m.startOffset = some s ∧ m.endOffset = some e ∧ 0 ≤ s ∧ s ≤ e) ∨
      (m.startOffset = none ∧ m.endOffset = none)) :
    ∀ (i : Nat) (cur nxt : Mention),
      (List.insertionSort mentionLe mentions)[i]? = some cur →
      (List.insertionSort mentionLe mentions)[i + 1]? = some nxt →
      (extent nxt).1 < (extent cur).2 →
      pyslice docData (maxExtent (extent cur)) (minExtent (extent nxt)) = [] := by
  intro i cur nxt hcur hnxt hoverlap
  obtain ⟨hic, hgc⟩ := List.getElem?_eq_some_iff.mp hcur
  obtain ⟨hin, hgn⟩ := List.getElem?_eq_some_iff.mp hnxt
  have hle : mentionLe cur nxt := by
    have hp := insertionSort_extent_sorted mentions
    have h2 := List.pairwise_iff_getElem.mp hp i (i + 1) hic hin (by omega)
    rwa [hgc, hgn] at h2
  have hcm : cur ∈ mentions :=
    (List.mem_insertionSort mentionLe).mp (hgc ▸ List.getElem_mem hic)
  have hnm : nxt ∈ mentions :=
    (List.mem_insertionSort mentionLe).mp (hgn ▸ List.getElem_mem hin)
  rcases hwf cur hcm with ⟨s1, e1, hs1, he1, h01, hse1⟩ | ⟨hs1, he1⟩
  · have hext1 : extent cur = (s1, e1) := by simp [extent, hs1, he1]
    rcases hwf nxt hnm with ⟨s2, e2, hs2, he2, h02, hse2⟩ | ⟨hs2, he2⟩
    · have hext2 : extent nxt = (s2, e2) := by simp [extent, hs2, he2]
      rw [hext1, hext2] at hoverlap ⊢
      rw [maxExtent_eq_snd hse1, minExtent_eq_fst hse2]
      exact pyslice_empty_of_le docData e1 s2 (by omega) h02 (by omega)
    · exfalso
      have hext2 : extent nxt = (-1, -1) := by simp [extent, hs2, he2]
      unfold mentionLe pairLe at hle
      rw [hext1, hext2] at hle
      simp only [] at hle
      omega
  · exfalso
    have hext1 : extent cur = (-1, -1) := by simp [extent, hs1, he1]
    rw [hext1] at hoverlap
    rcases hwf nxt hnm with ⟨s2, e2, hs2, he2, h02, hse2⟩ | ⟨hs2, he2⟩
    · rw [show (extent nxt).1 = s2 from by simp [extent, hs2]] at hoverlap
      omega
    · rw [show (extent nxt).1 = (-1 : Int) from by simp [extent, hs2]] at hoverlap
      omega

/-- C6 (witness): mentions (0, 5) and (3, 7) overlap and their gap slice
is empty. -/
theorem redact_overlap_gap_empty_witness :
    (∀ m ∈ msC6,
      (∃ s e : Int, m.startOffset = some s ∧ m.endOffset = some e ∧ 0 ≤ s ∧ s ≤ e) ∨
      (m.startOffset = none ∧ m.endOffset = none)) ∧
    ((List.insertionSort mentionLe msC6)[0]? = some ⟨some 0, some 5, some "A"⟩ ∧
      (List.insertionSort mentionLe msC6)[0 + 1]? = some ⟨some 3, some 7, some "B"⟩ ∧
      (extent (⟨some 3, some 7, some "B"⟩ : Mention)).1
        < (extent (⟨some 0, some 5, some "A"⟩ : Mention)).2) ∧
    pyslice docC6 (maxExtent (extent ⟨some 0, some 5, some "A"⟩))
      (minExtent (extent ⟨some 3, some 7, some "B"⟩)) = [] := by
  have hwf : ∀ m ∈ msC6,
      (∃ s e : Int, m.startOffset = some s ∧ m.endOffset = some e ∧ 0 ≤ s ∧ s ≤ e) ∨
      (m.startOffset = none ∧ m.endOffset = none) := by
    intro m hm
    rcases List.mem_cons.mp hm with rfl | hm2
    · exact Or.inl ⟨0, 5, rfl, rfl, by omega, by omega⟩
    · rcases List.mem_cons.mp hm2 with rfl | hm3
      · exact Or.inl ⟨3, 7, rfl, rfl, by omega, by omega⟩
      · simp at hm3
  refine ⟨hwf, ⟨by decide, by decide, by decide⟩, ?_⟩
  exact redact_overlap_gap_empty docC6 msC6 hwf 0 ⟨some 0, some 5, some "A"⟩
    ⟨some 3, some 7, some "B"⟩ (by decide) (by decide) (by decide)

/-- C10: a successful `mask` run mutates the caller's ADM in place: the
document text and the entity count are unchanged; an entity of an
unconfigured type is left exactly as it was; an entity of a configured
type keeps its mentions except that each mention's `mask` key now holds
the one computed label (a record update that leaves both offset fields
untouched), and this state is what the caller sees after `mask`
returns. -/
theorem mask_mutates_adm_in_place (adm : Adm) (masks : List (String × String))
    (out : List Char) (adm' : Adm)
    (hok : maskFull adm masks = (.ok out, adm')) :
    adm'.data = adm.data ∧
    adm'.entities.length = adm.entities.length ∧
    (∀ (m : Mention) (lab : String),
      ({ m with mask := some lab } : Mention).startOffset = m.startOffset ∧
      ({ m with mask := some lab } : Mention).endOffset = m.endOffset) ∧
    ∀ (i : Nat) (e : Entity), adm.entities[i]? = some e →
      (masks.lookup e.type = none → adm'.entities[i]? = some e) ∧
      (∀ tmpl, masks.lookup e.type = some tmpl →
        (e.mentions = [] → adm'.entities[i]? = some e) ∧
        (e.mentions ≠ [] → ∃ label,
          adm'.entities[i]? =
            some ({ e with mentions := e.mentions.map (fun m => { m with mask := some label }) }))) := by
  cases hgo : maskedMentionsGo masks initIndex adm.entities with
  | error pr =>
    obtain ⟨msg, es2⟩ := pr
    simp only [maskFull, masked_mentions, hgo, Prod.mk.injEq] at hok
    exact absurd hok.1 (fun hc => Except.noConfusion hc)
  | ok pr =>
    obtain ⟨es', ys'⟩ := pr
    simp only [maskFull, masked_mentions, hgo, Prod.mk.injEq] at hok
    obtain ⟨_, h2⟩ := hok
    subst h2
    obtain ⟨hlen, hspec⟩ := maskedMentionsGo_ok masks adm.entities initIndex es' ys' hgo
    refine ⟨rfl, hlen, fun m lab => ⟨rfl, rfl⟩, ?_⟩
    intro i e he
    obtain ⟨hunconf, hconf⟩ := hspec i e he
    refine ⟨hunconf, ?_⟩
    intro tmpl htmpl
    obtain ⟨n, _, hempty, hnonempty⟩ := hconf tmpl htmpl
    refine ⟨hempty, ?_⟩
    intro hne
    obtain ⟨label, _, hget⟩ := hnonempty hne
    exact ⟨label, hget⟩

/-- C10 (witness): the docstring example, whose ADM after masking holds
the decorated mentions with offsets and text unchanged. -/
theorem mask_mutates_adm_in_place_witness :
    maskFull exAdm exCfg = (.ok exOut, exAdmMasked) ∧
    (exAdmMasked.data = exAdm.data ∧
      exAdmMasked.entities.length = exAdm.entities.length ∧
      (∀ (m : Mention) (lab : String),
        ({ m with mask := some lab } : Mention).startOffset = m.startOffset ∧
        ({ m with mask := some lab } : Mention).endOffset = m.endOffset) ∧
      ∀ (i : Nat) (e : Entity), exAdm.entities[i]? = some e →
        (exCfg.lookup e.type = none → exAdmMasked.entities[i]? = some e) ∧
        (∀ tmpl, exCfg.lookup e.type = some tmpl →
          (e.mentions = [] → exAdmMasked.entities[i]? = some e) ∧
          (e.mentions ≠ [] → ∃ label,
            exAdmMasked.entities[i]? =
              some ({ e with mentions := e.mentions.map (fun m => { m with mask := some label }) })))) :=
  ⟨by decide, mask_mutates_adm_in_place exAdm exCfg exOut exAdmMasked (by decide)⟩

end MaskIdentities
